import Mathlib

/-!
# The HTTP logging filter of `filter.go`

A shallow embedding of package `filter`: the capturing `responseWriter`, the
field extractors of `httpInfo`, `httpInfo.log` and the middleware
`LogHTTPInfo`, together with the parts of the Go standard library they call
(`url.ParseQuery`, `Request.ParseForm`, `http.Header.Get`).

Conventions.
* A Go `string` and a Go `[]byte` are both finite byte sequences; they are
  `Bytes = List Char`, one `Char` per byte.
* A Go `map[string]T` is an association list; `mapGet` is `m[k]` with the
  comma-ok result, `mapSet` is `m[k] = v`. The order of the list is the order
  in which `range` visits the map in one execution.
* A value of an interface type (`http.ResponseWriter`, `http.Handler`) is a
  record of its methods over an explicit state, or a tree of the calls it makes.
-/

namespace Filter

/-! ## Go values -/

/-- Go `string` and `[]byte`: a finite sequence of bytes. -/
abbrev Bytes := List Char

/-- Go `error` values, identified by their message. -/
abbrev Error := String

/-- Go `map[string]T`. -/
abbrev GoMap (α : Type) := List (Bytes × α)

/-- The comma-ok lookup `v, ok := m[k]`. -/
def mapGet {α : Type} : GoMap α → Bytes → Option α
  | [], _ => none
  | (k', v) :: rest, k => if k' = k then some v else mapGet rest k

/-- The assignment `m[k] = v`. -/
def mapSet {α : Type} : GoMap α → Bytes → α → GoMap α
  | [], k, v => [(k, v)]
  | (k', v') :: rest, k, v => if k' = k then (k, v) :: rest else (k', v') :: mapSet rest k v

/-- The key set of a map, in visiting order. -/
def mapKeys {α : Type} (m : GoMap α) : List Bytes := m.map Prod.fst

/-- Go `url.Values` and `http.Header`: `map[string][]string`. -/
abbrev Values := GoMap (List Bytes)

/-- The statement `m[key] = append(m[key], vs...)`. -/
def appendValues (m : Values) (key : Bytes) (vs : List Bytes) : Values :=
  mapSet m key ((mapGet m key).getD [] ++ vs)

/-- Function `copyValues(dst, src)` of net/http:
`for k, vs := range src { dst[k] = append(dst[k], vs...) }`. -/
def copyValues (dst src : Values) : Values :=
  src.foldl (fun d kv => appendValues d kv.1 kv.2) dst

/-- Method `http.Header.Get` for a key already in canonical form: the first
value stored under the key, or the empty string. -/
def Header.Get (h : Values) (key : Bytes) : Bytes :=
  match mapGet h key with
  | some (v :: _) => v
  | _ => []

/-! ## Package net/url: `ParseQuery` -/

/-- Function `ishex` of net/url. -/
def ishex (c : Char) : Bool :=
  ('0' ≤ c && c ≤ '9') || ('a' ≤ c && c ≤ 'f') || ('A' ≤ c && c ≤ 'F')

/-- Function `unhex` of net/url. -/
def unhex (c : Char) : Nat :=
  if '0' ≤ c && c ≤ '9' then c.toNat - '0'.toNat
  else if 'a' ≤ c && c ≤ 'f' then c.toNat - 'a'.toNat + 10
  else if 'A' ≤ c && c ≤ 'F' then c.toNat - 'A'.toNat + 10
  else 0

/-- Function `url.QueryUnescape`: `%XY` becomes the byte `XY`, `+` becomes a
space; `none` is the `EscapeError` for a `%` not followed by two hex digits. -/
def QueryUnescape : Bytes → Option Bytes
  | [] => some []
  | c :: rest =>
    if c = '%' then
      match rest with
      | h :: l :: rest' =>
        if ishex h && ishex l then
          (QueryUnescape rest').map (fun t => Char.ofNat (unhex h * 16 + unhex l) :: t)
        else none
      | _ => none
    else if c = '+' then (QueryUnescape rest).map (fun t => ' ' :: t)
    else (QueryUnescape rest).map (fun t => c :: t)

/-- Function `strings.Cut(s, sep)` for a one-byte separator: the text before
the first `sep` and the text after it (all of `s` and nothing when `sep` does
not occur). -/
def cut (sep : Char) : Bytes → Bytes × Bytes
  | [] => ([], [])
  | c :: cs => if c = sep then ([], cs) else ((cut sep cs).1.cons c, (cut sep cs).2)

/-- The segments that the loop `for query != "" { key, query, _ = strings.Cut(query, "&") ... }`
of `parseQuery` visits, in order (a last empty segment is added, which the
loop body skips like every empty segment). -/
def segments (sep : Char) : Bytes → List Bytes
  | [] => [[]]
  | c :: cs =>
    if c = sep then [] :: segments sep cs
    else
      match segments sep cs with
      | [] => [[c]]
      | s :: ss => (c :: s) :: ss

/-- One round of the loop of `parseQuery` in net/url, on the segment `key`:
the map and the error so far go in, the new ones come out. -/
def parseQueryStep (st : Values × Option Error) (key : Bytes) : Values × Option Error :=
  if ';' ∈ key then (st.1, some "invalid semicolon separator in query")
  else if key = [] then st
  else
    match QueryUnescape (cut '=' key).1 with
    | none => (st.1, if st.2.isNone then some "invalid URL escape" else st.2)
    | some k =>
      match QueryUnescape (cut '=' key).2 with
      | none => (st.1, if st.2.isNone then some "invalid URL escape" else st.2)
      | some v => (appendValues st.1 k [v], st.2)

/-- Function `url.ParseQuery`: always a non-nil map holding the pairs that
parse, and the first error met. -/
def ParseQuery (query : Bytes) : Values × Option Error :=
  (segments '&' query).foldl parseQueryStep ([], none)

/-! ## Package net/http: the request and `ParseForm` -/

/-- The part of `url.URL` that the filter reads. -/
structure URL where
  /-- Field `RawQuery`: the encoded query, without the question mark. -/
  RawQuery : Bytes
deriving DecidableEq, Repr

/-- The part of `http.Request` that the filter and `ParseForm` read or write.
`Body` is the text still unread on the body stream; `vars` is what `mux.Vars`
returns for the request (`none` is the nil map of a request without route
variables). -/
structure Request where
  Method : Bytes
  URL : Option URL
  Header : Values
  Body : Bytes
  Host : Bytes
  Form : Option Values
  PostForm : Option Values
  RequestURI : Bytes
  vars : Option (GoMap Bytes)
deriving DecidableEq, Repr

/-- The bound `10 << 20` that `parsePostForm` puts on a form body. -/
def maxFormSize : Nat := 10 * 2 ^ 20

/-- Function `parsePostForm` of net/http. `ParseMediaType` stands for
`mime.ParseMediaType` (the media type and the error it returns); the body is
read only for the media type `application/x-www-form-urlencoded`, and then read
up to `maxFormSize + 1` bytes. The result is the request with its body stream
advanced, the parsed values (`none` is the nil map) and the error. -/
def parsePostForm (ParseMediaType : Bytes → Bytes × Option Error) (r : Request) :
    Request × Option Values × Option Error :=
  let ct := Header.Get r.Header "Content-Type".toList
  let ct := if ct = [] then "application/octet-stream".toList else ct
  let ct := ParseMediaType ct
  if ct.1 = "application/x-www-form-urlencoded".toList then
    let b := r.Body.take (maxFormSize + 1)
    let r' := { r with Body := r.Body.drop (maxFormSize + 1) }
    if b.length > maxFormSize then (r', none, some "http: POST too large")
    else (r', some (ParseQuery b).1, if ct.2.isNone then (ParseQuery b).2 else ct.2)
  else (r, none, ct.2)

/-- The first half of `Request.ParseForm`: fill `PostForm` when it is nil. -/
def fillPostForm (ParseMediaType : Bytes → Bytes × Option Error) (r : Request) :
    Request × Option Error :=
  match r.PostForm with
  | some _ => (r, none)
  | none =>
    let p : Request × Option Values × Option Error :=
      if r.Method = "POST".toList ∨ r.Method = "PUT".toList ∨ r.Method = "PATCH".toList then
        parsePostForm ParseMediaType r
      else (r, none, none)
    ({ p.1 with PostForm := some (p.2.1.getD []) }, p.2.2)

/-- The second half of `Request.ParseForm`: fill `Form` when it is nil, from
`PostForm` and then from the query of the URL. -/
def fillForm (r : Request) (err : Option Error) : Request × Option Error :=
  match r.Form with
  | some _ => (r, err)
  | none =>
    let post := r.PostForm.getD []
    let form0 : Option Values := if post.length > 0 then some (copyValues [] post) else none
    let q : Values × Option Error :=
      match r.URL with
      | none => ([], none)
      | some u => ParseQuery u.RawQuery
    let err' := if err.isNone then q.2 else err
    match form0 with
    | none => ({ r with Form := some q.1 }, err')
    | some f => ({ r with Form := some (copyValues f q.1) }, err')

/-- Method `Request.ParseForm` of net/http. -/
def Request.ParseForm (ParseMediaType : Bytes → Bytes × Option Error) (r : Request) :
    Request × Option Error :=
  let p := fillPostForm ParseMediaType r
  fillForm p.1 p.2

/-- Method `URL.Query`: the values of `ParseQuery(u.RawQuery)`, the error dropped. -/
def URL.Query (u : URL) : Values := (ParseQuery u.RawQuery).1

/-! ## Package zap: fields and the logger -/

/-- A `zap.Field`, by the constructor that made it. A reflected value is a
`map[string][]string`, `none` being the nil map. -/
inductive Field where
  | ns (key : String)
  | str (key : String) (val : Bytes)
  | int (key : String) (val : Int)
  | reflect (key : String) (val : Option Values)
  | bytes (key : String) (val : Bytes)
deriving DecidableEq, Repr

/-- The key of a field. -/
def Field.key : Field → String
  | .ns k => k
  | .str k _ => k
  | .int k _ => k
  | .reflect k _ => k
  | .bytes k _ => k

/-- Function `zap.Namespace` (the dot of the Go name is dropped in all five
constructors, since `zap.String` and `zap.Int` would hide the types). -/
def zapNamespace (key : String) : Field := Field.ns key

/-- Function `zap.String`. -/
def zapString (key : String) (val : Bytes) : Field := Field.str key val

/-- Function `zap.Int`. -/
def zapInt (key : String) (val : Int) : Field := Field.int key val

/-- Function `zap.Reflect`, at the map types the filter passes to it. -/
def zapReflect (key : String) (val : Option Values) : Field := Field.reflect key val

/-- Function `zap.ByteString`. -/
def zapByteString (key : String) (val : Bytes) : Field := Field.bytes key val

/-- One call into the logging sink: level, message and the fields in the order
they were passed. -/
structure Entry where
  Level : String
  Message : String
  Fields : List Field
deriving DecidableEq, Repr

/-- Method `logger.Info`: the entry handed to the sink. -/
def logger.Info (msg : String) (fields : List Field) : Entry :=
  { Level := "info", Message := msg, Fields := fields }

/-- The first field of an entry with the given key. -/
def Entry.field (e : Entry) (key : String) : Option Field :=
  e.Fields.find? (fun f => f.key == key)

/-! ## Package net/http: the response writer and the handler -/

/-- An implementation of the interface `http.ResponseWriter` over a state `σ`.
`Write` gives the new state, the byte count and the error; `setHeader` is the
in-place change of the map that `Header` returns. -/
structure ResponseWriter (σ : Type) where
  Header : σ → Values
  setHeader : σ → Values → σ
  Write : σ → Bytes → σ × Int × Option Error
  WriteHeader : σ → Int → σ

/-- A call of `Write` or `WriteHeader` on a response writer. -/
inductive Call where
  | Write (b : Bytes)
  | WriteHeader (statusCode : Int)
deriving DecidableEq, Repr

/-- An `http.Handler` whose `ServeHTTP` returns, as the tree of what it does
with the writer and the request it is given: each node is one action and the
continuation gets what the action returned. -/
inductive Handler where
  | ret
  | Write (b : Bytes) (k : Int → Option Error → Handler)
  | WriteHeader (statusCode : Int) (k : Handler)
  | Header (k : Values → Handler)
  | setHeader (h : Values) (k : Handler)
  | getRequest (k : Request → Handler)
  | setRequest (r : Request) (k : Handler)

/-! ## Package filter -/

/-- Type `responseWriter` of filter.go; a zero `bytes.Buffer` is the empty
text and the zero `code` is 0. -/
structure responseWriter (σ : Type) where
  w : σ
  buf : Bytes
  code : Int
deriving DecidableEq, Repr

/-- Method `(*responseWriter).Header`. -/
def responseWriter.Header {σ : Type} (W : ResponseWriter σ) (c : responseWriter σ) : Values :=
  W.Header c.w

/-- Method `(*responseWriter).Write`: `c.buf.Write(b)`, then `return c.w.Write(b)`. -/
def responseWriter.Write {σ : Type} (W : ResponseWriter σ) (c : responseWriter σ) (b : Bytes) :
    responseWriter σ × Int × Option Error :=
  let c1 := { c with buf := c.buf ++ b }
  let res := W.Write c1.w b
  ({ c1 with w := res.1 }, res.2.1, res.2.2)

/-- Method `(*responseWriter).WriteHeader`: `c.code = statusCode`, then
`c.w.WriteHeader(statusCode)`. -/
def responseWriter.WriteHeader {σ : Type} (W : ResponseWriter σ) (c : responseWriter σ)
    (statusCode : Int) : responseWriter σ :=
  let c1 := { c with code := statusCode }
  { c1 with w := W.WriteHeader c1.w statusCode }

/-- What a run of a handler leaves: the capturing writer, the request, and the
calls of `Write` and `WriteHeader` the handler made on the writer, in order. -/
structure Served (σ : Type) where
  w : responseWriter σ
  r : Request
  calls : List Call

/-- The call `next.ServeHTTP(rw, r)` where `rw` is a `*responseWriter`: the
tree is run against the methods of `responseWriter`. -/
def Handler.ServeHTTP {σ : Type} (W : ResponseWriter σ) :
    Handler → responseWriter σ → Request → Served σ
  | .ret, rw, r => { w := rw, r := r, calls := [] }
  | .Write b k, rw, r =>
    let res := responseWriter.Write W rw b
    let s := Handler.ServeHTTP W (k res.2.1 res.2.2) res.1 r
    { s with calls := Call.Write b :: s.calls }
  | .WriteHeader statusCode k, rw, r =>
    let s := Handler.ServeHTTP W k (responseWriter.WriteHeader W rw statusCode) r
    { s with calls := Call.WriteHeader statusCode :: s.calls }
  | .Header k, rw, r => Handler.ServeHTTP W (k (responseWriter.Header W rw)) rw r
  | .setHeader h k, rw, r => Handler.ServeHTTP W k { rw with w := W.setHeader rw.w h } r
  | .getRequest k, rw, r => Handler.ServeHTTP W (k r) rw r
  | .setRequest r' k, rw, _ => Handler.ServeHTTP W k rw r'

/-- Type `httpInfo` of filter.go. -/
structure httpInfo (σ : Type) where
  r : Request
  w : responseWriter σ

/-- Method `(*httpInfo).form`: `ParseForm` changes the request, its error is dropped. -/
def httpInfo.form {σ : Type} (ParseMediaType : Bytes → Bytes × Option Error) (hi : httpInfo σ) :
    httpInfo σ × Field :=
  let r' := (Request.ParseForm ParseMediaType hi.r).1
  ({ hi with r := r' }, zapReflect "form" r'.Form)

/-- Method `(*httpInfo).query`. -/
def httpInfo.query {σ : Type} (hi : httpInfo σ) : Field :=
  let q : Values :=
    match hi.r.URL with
    | none => []
    | some u => u.Query
  zapReflect "query" (some q)

/-- Method `(*httpInfo).vars`: the loop `for k, v := range raws { vars[k] = []string{v} }`
over the map of `mux.Vars`, a nil map giving no round. -/
def httpInfo.vars {σ : Type} (hi : httpInfo σ) : Field :=
  let raws : GoMap Bytes := hi.r.vars.getD []
  let vars : Values := raws.foldl (fun m kv => mapSet m kv.1 [kv.2]) []
  zapReflect "vars" (some vars)

/-- Method `(*httpInfo).method`. -/
def httpInfo.method {σ : Type} (hi : httpInfo σ) : Field := zapString "method" hi.r.Method

/-- Method `(*httpInfo).host`. -/
def httpInfo.host {σ : Type} (hi : httpInfo σ) : Field := zapString "host" hi.r.Host

/-- Method `(*httpInfo).path`. -/
def httpInfo.path {σ : Type} (hi : httpInfo σ) : Field := zapString "path" hi.r.RequestURI

/-- Method `(*httpInfo).requestHeader`. -/
def httpInfo.requestHeader {σ : Type} (hi : httpInfo σ) : Field :=
  zapReflect "requestHeader" (some hi.r.Header)

/-- Method `(*httpInfo).requestBody`: `buf.ReadFrom(hi.r.Body)` takes all that
is left on the body stream. -/
def httpInfo.requestBody {σ : Type} (hi : httpInfo σ) : httpInfo σ × Field :=
  ({ hi with r := { hi.r with Body := [] } }, zapString "requestBody" hi.r.Body)

/-- Method `(*httpInfo).responseHeader`. -/
def httpInfo.responseHeader {σ : Type} (W : ResponseWriter σ) (hi : httpInfo σ) : Field :=
  zapReflect "responseHeader" (some (responseWriter.Header W hi.w))

/-- Method `(*httpInfo).code`. -/
def httpInfo.code {σ : Type} (hi : httpInfo σ) : Field := zapInt "responseCode" hi.w.code

/-- Method `(*httpInfo).reponseBody`. -/
def httpInfo.reponseBody {σ : Type} (hi : httpInfo σ) : Field :=
  zapByteString "responseBody" hi.w.buf

/-- Method `(*httpInfo).log`: the twelve arguments of `logger.Info` after the
message are evaluated from left to right, `form` and `requestBody` changing
the request on the way; the result is the request afterwards and the entry. -/
def httpInfo.log {σ : Type} (ParseMediaType : Bytes → Bytes × Option Error)
    (W : ResponseWriter σ) (hi : httpInfo σ) : httpInfo σ × Entry :=
  let f0 := zapNamespace "httpInfo"
  let f1 := hi.host
  let f2 := hi.method
  let f3 := hi.path
  let p4 := hi.form ParseMediaType
  let f5 := p4.1.query
  let f6 := p4.1.vars
  let p7 := p4.1.requestBody
  let f8 := p7.1.requestHeader
  let f9 := p7.1.code
  let f10 := p7.1.responseHeader W
  let f11 := p7.1.reponseBody
  (p7.1, logger.Info "http request info" [f0, f1, f2, f3, p4.2, f5, f6, p7.2, f8, f9, f10, f11])

/-- An event of one invocation of the filter: a call the inner handler made on
the writer it was given, or an entry handed to the logger. -/
inductive Event where
  | call (c : Call)
  | log (e : Entry)
deriving DecidableEq, Repr

/-- What one invocation of the handler built by `LogHTTPInfo` leaves: the real
writer, the request, and the events in order. -/
structure Outcome (σ : Type) where
  w : σ
  r : Request
  trace : List Event

/-- Function `LogHTTPInfo`, applied to `next` and then to `(w, r)`:
`rw := &responseWriter{w: w}`, `next.ServeHTTP(rw, r)`, `info.log()`. -/
def LogHTTPInfo {σ : Type} (ParseMediaType : Bytes → Bytes × Option Error)
    (W : ResponseWriter σ) (next : Handler) (w : σ) (r : Request) : Outcome σ :=
  let rw : responseWriter σ := { w := w, buf := [], code := 0 }
  let s := next.ServeHTTP W rw r
  let info : httpInfo σ := { w := s.w, r := s.r }
  let l := info.log ParseMediaType W
  { w := l.1.w.w, r := l.1.r, trace := s.calls.map Event.call ++ [Event.log l.2] }

/-! ## Reading a trace -/

/-- The entries logged in a trace, in order. -/
def entries : List Event → List Entry
  | [] => []
  | .log e :: t => e :: entries t
  | .call _ :: t => entries t

/-- The calls of the inner handler in a trace, in order. -/
def callsOf : List Event → List Call
  | [] => []
  | .call c :: t => c :: callsOf t
  | .log _ :: t => callsOf t

/-- The byte slices passed to `Write` in a list of calls, in order. -/
def writes : List Call → List Bytes
  | [] => []
  | .Write b :: t => b :: writes t
  | .WriteHeader _ :: t => writes t

/-- The status codes passed to `WriteHeader` in a list of calls, in order. -/
def statuses : List Call → List Int
  | [] => []
  | .WriteHeader c :: t => c :: statuses t
  | .Write _ :: t => statuses t

/-- The status that a list of calls leaves in `code`, starting from `d`: the
argument of the last `WriteHeader`, or `d` when there is none. -/
def lastStatus : Int → List Call → Int
  | d, [] => d
  | _, .WriteHeader c :: t => lastStatus c t
  | d, .Write _ :: t => lastStatus d t

/-- The concatenation `b1 ++ ... ++ bn`. -/
def concat : List Bytes → Bytes
  | [] => []
  | b :: t => b ++ concat t

/-- The field with the given key in the first entry of a trace. -/
def logged (key : String) (trace : List Event) : Option Field :=
  match entries trace with
  | [] => none
  | e :: _ => e.field key

/-! ## Writers used to observe the filter -/

/-- A real writer that also keeps the list of the `Write` and `WriteHeader`
calls made on it, whatever the writer `W` underneath does with them. -/
def traced {σ : Type} (W : ResponseWriter σ) : ResponseWriter (σ × List Call) where
  Header s := W.Header s.1
  setHeader s h := (W.setHeader s.1 h, s.2)
  Write s b := (((W.Write s.1 b).1, s.2 ++ [Call.Write b]), (W.Write s.1 b).2)
  WriteHeader s c := (W.WriteHeader s.1 c, s.2 ++ [Call.WriteHeader c])

/-- The state of the response of net/http as a client sees it: headers, the
status once written, and the body. -/
structure Response where
  header : Values
  status : Option Int
  body : Bytes
deriving DecidableEq, Repr

/-- The response writer of the net/http server (as `httptest.ResponseRecorder`
models it): the first `Write` without a status writes the status 200, a later
`WriteHeader` is dropped, every `Write` takes all its bytes. -/
def server : ResponseWriter Response where
  Header s := s.header
  setHeader s h := { s with header := h }
  Write s b :=
    ({ s with status := some (s.status.getD 200), body := s.body ++ b }, (b.length : Int), none)
  WriteHeader s c := { s with status := some (s.status.getD c) }

/-- A media-type function for closed examples: the text before the first `;`,
unchanged, and no error. It agrees with `mime.ParseMediaType` on a value that
is a lower-case `type/subtype` with no parameter. -/
def bareMediaType (v : Bytes) : Bytes × Option Error := ((cut ';' v).1, none)

/-! ## Inputs of the scenarios -/

/-- A response on which nothing was written yet. -/
def fresh : Response := { header := [], status := none, body := [] }

/-- The request `GET /items?limit=5` with the route variable `id = 42` and no body. -/
def getItems : Request :=
  { Method := "GET".toList
    URL := some { RawQuery := "limit=5".toList }
    Header := []
    Body := []
    Host := "example.com".toList
    Form := none
    PostForm := none
    RequestURI := "/items?limit=5".toList
    vars := some [("id".toList, "42".toList)] }

/-- A `POST /items` whose body `a=1` is a form of type
`application/x-www-form-urlencoded`. -/
def postForm : Request :=
  { Method := "POST".toList
    URL := some { RawQuery := [] }
    Header := [("Content-Type".toList, ["application/x-www-form-urlencoded".toList])]
    Body := "a=1".toList
    Host := "example.com".toList
    Form := none
    PostForm := none
    RequestURI := "/items".toList
    vars := none }

/-- A `POST /items?limit=5` whose body `a=1&limit=9` is a form of type
`application/x-www-form-urlencoded`: the name `limit` is in the body and in the
query of the URL. -/
def postItems : Request :=
  { Method := "POST".toList
    URL := some { RawQuery := "limit=5".toList }
    Header := [("Content-Type".toList, ["application/x-www-form-urlencoded".toList])]
    Body := "a=1&limit=9".toList
    Host := "example.com".toList
    Form := none
    PostForm := none
    RequestURI := "/items?limit=5".toList
    vars := none }

/-- The inner handler that calls `WriteHeader(404)` and then `Write("not found")`. -/
def notFound : Handler :=
  Handler.WriteHeader 404 (Handler.Write "not found".toList (fun _ _ => Handler.ret))

/-- The inner handler that only calls `Write("hello")`. -/
def onlyBody : Handler := Handler.Write "hello".toList (fun _ _ => Handler.ret)

/-- The `httpInfo` that `log` gets for `getItems` when the inner handler did nothing. -/
def atLog : httpInfo Response :=
  { r := getItems, w := { w := fresh, buf := [], code := 0 } }

/-- The `httpInfo` that `log` gets for `postItems` when the inner handler did nothing. -/
def atLogPost : httpInfo Response :=
  { r := postItems, w := { w := fresh, buf := [], code := 0 } }

/-! ## Lemmas on traces and on a run of the handler -/

theorem entries_calls_append (cs : List Call) (e : Entry) :
    entries (cs.map Event.call ++ [Event.log e]) = [e] := by
  induction cs with
  | nil => rfl
  | cons c t ih => simpa [entries] using ih

theorem callsOf_calls_append (cs : List Call) (e : Entry) :
    callsOf (cs.map Event.call ++ [Event.log e]) = cs := by
  induction cs with
  | nil => rfl
  | cons c t ih => simpa [callsOf] using ih

theorem concat_append (xs ys : List Bytes) : concat (xs ++ ys) = concat xs ++ concat ys := by
  induction xs with
  | nil => rfl
  | cons b t ih => simp [concat, ih]

/-- The buffer after a run is the buffer before it followed by the slices written. -/
theorem ServeHTTP_buf {σ : Type} (W : ResponseWriter σ) (h : Handler) :
    ∀ (rw : responseWriter σ) (r : Request),
      (h.ServeHTTP W rw r).w.buf = rw.buf ++ concat (writes (h.ServeHTTP W rw r).calls) := by
  induction h with
  | ret => intro rw r; simp [Handler.ServeHTTP, writes, concat]
  | Write b k ih =>
    intro rw r
    simp only [Handler.ServeHTTP, writes, concat]
    rw [ih]
    simp [responseWriter.Write]
  | WriteHeader c k ih =>
    intro rw r
    simp only [Handler.ServeHTTP, writes]
    rw [ih]
    simp [responseWriter.WriteHeader]
  | Header k ih => intro rw r; simp only [Handler.ServeHTTP]; exact ih _ rw r
  | setHeader hd k ih => intro rw r; simp only [Handler.ServeHTTP]; rw [ih]
  | getRequest k ih => intro rw r; simp only [Handler.ServeHTTP]; exact ih _ rw r
  | setRequest r' k ih => intro rw r; simp only [Handler.ServeHTTP]; exact ih rw r'

/-- The code after a run is the last status passed to `WriteHeader`, or the code
before the run when there was no such call. -/
theorem ServeHTTP_code {σ : Type} (W : ResponseWriter σ) (h : Handler) :
    ∀ (rw : responseWriter σ) (r : Request),
      (h.ServeHTTP W rw r).w.code = lastStatus rw.code (h.ServeHTTP W rw r).calls := by
  induction h with
  | ret => intro rw r; simp [Handler.ServeHTTP, lastStatus]
  | Write b k ih =>
    intro rw r
    simp only [Handler.ServeHTTP, lastStatus]
    rw [ih]
    simp [responseWriter.Write]
  | WriteHeader c k ih =>
    intro rw r
    simp only [Handler.ServeHTTP, lastStatus]
    rw [ih]
    simp [responseWriter.WriteHeader]
  | Header k ih => intro rw r; simp only [Handler.ServeHTTP]; exact ih _ rw r
  | setHeader hd k ih => intro rw r; simp only [Handler.ServeHTTP]; rw [ih]
  | getRequest k ih => intro rw r; simp only [Handler.ServeHTTP]; exact ih _ rw r
  | setRequest r' k ih => intro rw r; simp only [Handler.ServeHTTP]; exact ih rw r'

theorem lastStatus_of_statuses_nil (d : Int) (cs : List Call) (h : statuses cs = []) :
    lastStatus d cs = d := by
  induction cs with
  | nil => rfl
  | cons c t ih =>
    cases c with
    | Write b => simp only [statuses] at h; simpa [lastStatus] using ih h
    | WriteHeader s => simp [statuses] at h

/-- On a recording real writer, the calls recorded during a run are exactly the
calls the handler made on the capturing writer, in the same order. -/
theorem ServeHTTP_traced {σ : Type} (W : ResponseWriter σ) (h : Handler) :
    ∀ (rw : responseWriter (σ × List Call)) (r : Request),
      (h.ServeHTTP (traced W) rw r).w.w.2 = rw.w.2 ++ (h.ServeHTTP (traced W) rw r).calls := by
  induction h with
  | ret => intro rw r; simp [Handler.ServeHTTP]
  | Write b k ih =>
    intro rw r
    simp only [Handler.ServeHTTP]
    rw [ih]
    simp [responseWriter.Write, traced]
  | WriteHeader c k ih =>
    intro rw r
    simp only [Handler.ServeHTTP]
    rw [ih]
    simp [responseWriter.WriteHeader, traced]
  | Header k ih => intro rw r; simp only [Handler.ServeHTTP]; exact ih _ rw r
  | setHeader hd k ih => intro rw r; simp only [Handler.ServeHTTP]; rw [ih]; simp [traced]
  | getRequest k ih => intro rw r; simp only [Handler.ServeHTTP]; exact ih _ rw r
  | setRequest r' k ih => intro rw r; simp only [Handler.ServeHTTP]; exact ih rw r'

/-! ## Lemmas on `ParseForm` and on `log` -/

theorem parsePostForm_keeps (pm : Bytes → Bytes × Option Error) (r : Request) :
    (parsePostForm pm r).1.URL = r.URL ∧ (parsePostForm pm r).1.vars = r.vars ∧
      (parsePostForm pm r).1.Form = r.Form := by
  unfold parsePostForm
  simp only []
  split_ifs <;> simp

/-- `ParseForm` leaves the URL and the route variables of the request alone. -/
theorem ParseForm_keeps (pm : Bytes → Bytes × Option Error) (r : Request) :
    (Request.ParseForm pm r).1.URL = r.URL ∧ (Request.ParseForm pm r).1.vars = r.vars := by
  have hp := parsePostForm_keeps pm r
  have h1 : (fillPostForm pm r).1.URL = r.URL ∧ (fillPostForm pm r).1.vars = r.vars := by
    unfold fillPostForm
    split
    · simp
    · simp only []
      split
      · exact ⟨hp.1, hp.2.1⟩
      · simp
  have h2 : ∀ (q : Request) (e : Option Error),
      (fillForm q e).1.URL = q.URL ∧ (fillForm q e).1.vars = q.vars := by
    intro q e
    unfold fillForm
    split
    · simp
    · simp only []
      split <;> simp
  unfold Request.ParseForm
  simp only []
  exact ⟨(h2 _ _).1.trans h1.1, (h2 _ _).2.trans h1.2⟩

/-- The fields of the entry that `log` hands to the logger, spelled out. -/
theorem log_Fields {σ : Type} (pm : Bytes → Bytes × Option Error) (W : ResponseWriter σ)
    (hi : httpInfo σ) :
    (hi.log pm W).2.Fields =
      [Field.ns "httpInfo",
       Field.str "host" hi.r.Host,
       Field.str "method" hi.r.Method,
       Field.str "path" hi.r.RequestURI,
       Field.reflect "form" (Request.ParseForm pm hi.r).1.Form,
       Field.reflect "query" (some (match hi.r.URL with
         | none => []
         | some u => (ParseQuery u.RawQuery).1)),
       Field.reflect "vars" (some ((hi.r.vars.getD []).foldl (fun m kv => mapSet m kv.1 [kv.2]) [])),
       Field.str "requestBody" (Request.ParseForm pm hi.r).1.Body,
       Field.reflect "requestHeader" (some (Request.ParseForm pm hi.r).1.Header),
       Field.int "responseCode" hi.w.code,
       Field.reflect "responseHeader" (some (W.Header hi.w.w)),
       Field.bytes "responseBody" hi.w.buf] := by
  have hk := ParseForm_keeps pm hi.r
  simp only [httpInfo.log, logger.Info, httpInfo.host, httpInfo.method, httpInfo.path,
    httpInfo.form, httpInfo.query, httpInfo.vars, httpInfo.requestBody, httpInfo.requestHeader,
    httpInfo.code, httpInfo.responseHeader, httpInfo.reponseBody, responseWriter.Header,
    zapNamespace, zapString, zapInt, zapReflect, zapByteString, URL.Query, hk.1, hk.2]

/-- The trace of one invocation read back: its calls are those of the run of
`next`, and a logged field is a field of the entry that `log` built from the
writer and the request that the run left. -/
theorem LogHTTPInfo_trace {σ : Type} (pm : Bytes → Bytes × Option Error) (W : ResponseWriter σ)
    (next : Handler) (w : σ) (r : Request) :
    callsOf (LogHTTPInfo pm W next w r).trace
        = (next.ServeHTTP W { w := w, buf := [], code := 0 } r).calls ∧
      ∀ key, logged key (LogHTTPInfo pm W next w r).trace
        = (httpInfo.log pm W
            { w := (next.ServeHTTP W { w := w, buf := [], code := 0 } r).w,
              r := (next.ServeHTTP W { w := w, buf := [], code := 0 } r).r }).2.field key := by
  constructor
  · simp only [LogHTTPInfo, callsOf_calls_append]
  · intro key
    simp only [LogHTTPInfo, logged, entries_calls_append]

theorem field_responseBody {σ : Type} (pm : Bytes → Bytes × Option Error) (W : ResponseWriter σ)
    (hi : httpInfo σ) :
    (hi.log pm W).2.field "responseBody" = some (zapByteString "responseBody" hi.w.buf) := by
  simp [Entry.field, log_Fields, Field.key, zapByteString]

theorem field_responseCode {σ : Type} (pm : Bytes → Bytes × Option Error) (W : ResponseWriter σ)
    (hi : httpInfo σ) :
    (hi.log pm W).2.field "responseCode" = some (zapInt "responseCode" hi.w.code) := by
  simp [Entry.field, log_Fields, Field.key, zapInt]

theorem log_keeps_writer {σ : Type} (pm : Bytes → Bytes × Option Error) (W : ResponseWriter σ)
    (hi : httpInfo σ) : (hi.log pm W).1.w = hi.w := rfl

theorem field_form {σ : Type} (pm : Bytes → Bytes × Option Error) (W : ResponseWriter σ)
    (hi : httpInfo σ) :
    (hi.log pm W).2.field "form"
      = some (zapReflect "form" (Request.ParseForm pm hi.r).1.Form) := by
  simp [Entry.field, log_Fields, Field.key, zapReflect]

theorem field_query {σ : Type} (pm : Bytes → Bytes × Option Error) (W : ResponseWriter σ)
    (hi : httpInfo σ) :
    (hi.log pm W).2.field "query"
      = some (zapReflect "query" (some (match hi.r.URL with
          | none => []
          | some u => (ParseQuery u.RawQuery).1))) := by
  simp [Entry.field, log_Fields, Field.key, zapReflect]

theorem field_vars {σ : Type} (pm : Bytes → Bytes × Option Error) (W : ResponseWriter σ)
    (hi : httpInfo σ) :
    (hi.log pm W).2.field "vars"
      = some (zapReflect "vars"
          (some ((hi.r.vars.getD []).foldl (fun m kv => mapSet m kv.1 [kv.2]) []))) := by
  simp [Entry.field, log_Fields, Field.key, zapReflect]

/-! ## Lemmas on maps -/

theorem mapSet_fresh {α : Type} (m : GoMap α) (k : Bytes) (v : α) (h : k ∉ mapKeys m) :
    mapSet m k v = m ++ [(k, v)] := by
  induction m with
  | nil => rfl
  | cons kv t ih =>
    obtain ⟨k', v'⟩ := kv
    simp only [mapKeys, List.map_cons, List.mem_cons, not_or] at h
    have hne : ¬ k' = k := fun e => h.1 e.symm
    simp only [mapSet, hne, if_false, List.cons_append]
    rw [ih h.2]

theorem foldl_mapSet_wrap (m : GoMap Bytes) :
    ∀ acc : Values, (∀ kv ∈ m, kv.1 ∉ mapKeys acc) → (mapKeys m).Nodup →
      m.foldl (fun a kv => mapSet a kv.1 [kv.2]) acc = acc ++ m.map (fun kv => (kv.1, [kv.2])) := by
  induction m with
  | nil => intro acc _ _; simp
  | cons kv t ih =>
    intro acc hacc hnd
    simp only [mapKeys, List.map_cons, List.nodup_cons] at hnd
    simp only [List.foldl_cons, List.map_cons]
    rw [mapSet_fresh acc kv.1 [kv.2] (hacc kv (List.mem_cons_self _ _))]
    rw [ih _ ?_ hnd.2]
    · simp
    · intro kv' hkv'
      simp only [mapKeys, List.map_append, List.map_cons, List.map_nil, List.mem_append,
        List.mem_singleton, not_or]
      refine ⟨hacc kv' (List.mem_cons_of_mem _ hkv'), ?_⟩
      intro e
      exact hnd.1 (e ▸ List.mem_map_of_mem Prod.fst hkv')

theorem mapGet_wrap (m : GoMap Bytes) (k : Bytes) :
    mapGet (m.map (fun kv => (kv.1, [kv.2]))) k = (mapGet m k).map (fun x => [x]) := by
  induction m with
  | nil => rfl
  | cons kv t ih =>
    simp only [List.map_cons, mapGet]
    split_ifs
    · rfl
    · exact ih

theorem ParseQuery_nil : ParseQuery [] = ([], none) := by decide

/-! ## Lemmas on `copyValues` and on the form of a request -/

theorem mapGet_mapSet {α : Type} (m : GoMap α) (k : Bytes) (v : α) (k' : Bytes) :
    mapGet (mapSet m k v) k' = if k = k' then some v else mapGet m k' := by
  induction m with
  | nil => simp [mapSet, mapGet]
  | cons kv t ih =>
    obtain ⟨k0, v0⟩ := kv
    by_cases h0 : k0 = k
    · subst h0
      simp only [mapSet, if_true, mapGet]
      split_ifs <;> rfl
    · simp only [mapSet, h0, if_false, mapGet]
      by_cases h1 : k0 = k'
      · subst h1
        have : ¬ k = k0 := fun e => h0 e.symm
        simp [this]
      · simp only [h1, if_false]
        exact ih

theorem mem_mapKeys_mapSet {α : Type} (m : GoMap α) (k : Bytes) (v : α) (k' : Bytes) :
    k' ∈ mapKeys (mapSet m k v) ↔ k' = k ∨ k' ∈ mapKeys m := by
  induction m with
  | nil =>
    simp only [mapSet, mapKeys, List.map_cons, List.map_nil, List.mem_singleton,
      List.not_mem_nil, or_false]
  | cons kv t ih =>
    obtain ⟨k0, v0⟩ := kv
    by_cases h0 : k0 = k
    · subst h0
      simp only [mapSet, if_true, mapKeys, List.map_cons, List.mem_cons]
      tauto
    · simp only [mapSet, h0, if_false]
      simp only [mapKeys, List.map_cons, List.mem_cons] at ih ⊢
      rw [ih]
      tauto

theorem nodup_mapKeys_mapSet {α : Type} (m : GoMap α) (k : Bytes) (v : α)
    (h : (mapKeys m).Nodup) : (mapKeys (mapSet m k v)).Nodup := by
  induction m with
  | nil =>
    simp only [mapSet, mapKeys, List.map_cons, List.map_nil, List.nodup_cons,
      List.not_mem_nil, not_false_eq_true, List.nodup_nil, and_self]
  | cons kv t ih =>
    obtain ⟨k0, v0⟩ := kv
    have hk : k0 ∉ mapKeys t ∧ (mapKeys t).Nodup := by
      simp only [mapKeys, List.map_cons, List.nodup_cons] at h ⊢
      exact h
    by_cases h0 : k0 = k
    · subst h0
      simp only [mapSet, if_true, mapKeys, List.map_cons, List.nodup_cons] at h ⊢
      exact h
    · simp only [mapSet, h0, if_false]
      have hmem : k0 ∉ mapKeys (mapSet t k v) := by
        rw [mem_mapKeys_mapSet]
        exact fun e => e.elim h0 hk.1
      have := ih hk.2
      simp only [mapKeys, List.map_cons, List.nodup_cons] at hmem this ⊢
      exact ⟨hmem, this⟩

theorem mapGet_none_of_not_mem {α : Type} (m : GoMap α) (k : Bytes) (h : k ∉ mapKeys m) :
    mapGet m k = none := by
  induction m with
  | nil => rfl
  | cons kv t ih =>
    obtain ⟨k0, v0⟩ := kv
    simp only [mapKeys, List.map_cons, List.mem_cons, not_or] at h
    have : ¬ k0 = k := fun e => h.1 e.symm
    simp only [mapGet, this, if_false]
    exact ih h.2

/-- What a lookup finds after `m[key] = append(m[key], vs...)`. -/
theorem mapGet_appendValues (m : Values) (k : Bytes) (vs : List Bytes) (k' : Bytes) :
    mapGet (appendValues m k vs) k'
      = if k = k' then some ((mapGet m k).getD [] ++ vs) else mapGet m k' :=
  mapGet_mapSet m k _ k'

/-- What a lookup finds after `copyValues(dst, src)`: the values of `dst` under
the key, followed by those of `src`. -/
theorem mapGet_copyValues (src : Values) :
    ∀ (dst : Values) (k : Bytes), (mapKeys src).Nodup →
      mapGet (copyValues dst src) k
        = match mapGet src k with
          | none => mapGet dst k
          | some vs => some ((mapGet dst k).getD [] ++ vs) := by
  induction src with
  | nil => intro dst k _; rfl
  | cons kv t ih =>
    intro dst k hnd
    obtain ⟨k0, v0⟩ := kv
    have hk : k0 ∉ mapKeys t ∧ (mapKeys t).Nodup := by
      simpa [mapKeys] using hnd
    have e : copyValues dst ((k0, v0) :: t) = copyValues (appendValues dst k0 v0) t := rfl
    rw [e, ih _ k hk.2, mapGet_appendValues]
    by_cases h0 : k0 = k
    · subst h0
      simp [mapGet, mapGet_none_of_not_mem t k0 hk.1]
    · simp [mapGet, h0]

theorem nodup_mapKeys_copyValues (src : Values) :
    ∀ dst : Values, (mapKeys dst).Nodup → (mapKeys (copyValues dst src)).Nodup := by
  induction src with
  | nil => intro dst h; exact h
  | cons kv t ih =>
    intro dst h
    exact ih _ (nodup_mapKeys_mapSet dst kv.1 _ h)

/-- The map that `ParseQuery` returns has each key once. -/
theorem nodup_mapKeys_ParseQuery (query : Bytes) : (mapKeys (ParseQuery query).1).Nodup := by
  have step : ∀ (st : Values × Option Error) (key : Bytes),
      (mapKeys st.1).Nodup → (mapKeys (parseQueryStep st key).1).Nodup := by
    intro st key h
    unfold parseQueryStep
    repeat' split
    all_goals first
      | exact h
      | exact nodup_mapKeys_mapSet st.1 _ _ h
  have all : ∀ (l : List Bytes) (st : Values × Option Error),
      (mapKeys st.1).Nodup → (mapKeys (l.foldl parseQueryStep st).1).Nodup := by
    intro l
    induction l with
    | nil => intro st h; exact h
    | cons a t ih => intro st h; exact ih _ (step st a h)
  exact all _ _ (by simp [mapKeys])

/-- The two `copyValues` of `ParseForm`, seen through a lookup: a key of the
form holds its values in the body form followed by its values in the query. -/
theorem mapGet_form_of_post_and_query (post q : Values) (hpost : (mapKeys post).Nodup)
    (hq : (mapKeys q).Nodup) (k : Bytes) :
    mapGet (if post.length > 0 then copyValues (copyValues [] post) q else q) k
      = match mapGet post k, mapGet q k with
        | none, none => none
        | some a, none => some a
        | none, some b => some b
        | some a, some b => some (a ++ b) := by
  split_ifs with h
  · rw [mapGet_copyValues q _ k hq, mapGet_copyValues post _ k hpost]
    cases mapGet post k <;> cases mapGet q k <;> simp [mapGet]
  · have : post = [] := by
      cases post with
      | nil => rfl
      | cons a t => simp at h
    subst this
    cases mapGet q k <;> simp [mapGet]

/-- The values that `parsePostForm` returns: the parsed body when the media
type says it is a form and it fits in `maxFormSize`, the nil map otherwise. -/
theorem parsePostForm_values (pm : Bytes → Bytes × Option Error) (r : Request) :
    (parsePostForm pm r).2.1.getD []
      = if (pm (if Header.Get r.Header "Content-Type".toList = []
                then "application/octet-stream".toList
                else Header.Get r.Header "Content-Type".toList)).1
              = "application/x-www-form-urlencoded".toList
            ∧ r.Body.length ≤ maxFormSize
        then (ParseQuery r.Body).1 else [] := by
  unfold parsePostForm
  simp only []
  by_cases hct : (pm (if Header.Get r.Header "Content-Type".toList = []
                then "application/octet-stream".toList
                else Header.Get r.Header "Content-Type".toList)).1
              = "application/x-www-form-urlencoded".toList
  · simp only [hct, if_true, true_and]
    by_cases hlen : r.Body.length ≤ maxFormSize
    · have ht : List.take (maxFormSize + 1) r.Body = r.Body :=
        List.take_of_length_le (Nat.le_succ_of_le hlen)
      have hn : ¬ r.Body.length > maxFormSize := Nat.not_lt.mpr hlen
      simp only [ht, hn, hlen, if_true, if_false, Option.getD_some]
    · have hl : (List.take (maxFormSize + 1) r.Body).length > maxFormSize := by
        rw [List.length_take]
        omega
      simp only [hl, hlen, if_true, if_false, Option.getD_none]
  · simp only [hct, if_false, false_and, Option.getD_none]

/-- For a request not parsed before, `ParseForm` sets `Form` from the body form
`post` (read for a POST, PUT or PATCH whose media type says the body is a form
and whose body fits in `maxFormSize`, empty otherwise) and then from the query
`q` of the URL. -/
theorem ParseForm_Form_of_fresh (pm : Bytes → Bytes × Option Error) (r : Request)
    (hf : r.Form = none) (hp : r.PostForm = none) :
    ∃ post q : Values,
      post = (if (r.Method = "POST".toList ∨ r.Method = "PUT".toList
                    ∨ r.Method = "PATCH".toList)
                  ∧ (pm (if Header.Get r.Header "Content-Type".toList = []
                        then "application/octet-stream".toList
                        else Header.Get r.Header "Content-Type".toList)).1
                      = "application/x-www-form-urlencoded".toList
                  ∧ r.Body.length ≤ maxFormSize
                then (ParseQuery r.Body).1 else [])
      ∧ q = (match r.URL with
              | none => []
              | some u => (ParseQuery u.RawQuery).1)
      ∧ (Request.ParseForm pm r).1.Form
          = some (if post.length > 0 then copyValues (copyValues [] post) q else q) := by
  refine ⟨_, _, rfl, rfl, ?_⟩
  have hk := parsePostForm_keeps pm r
  have hv := parsePostForm_values pm r
  have h1 : (fillPostForm pm r).1.PostForm
        = some (if (r.Method = "POST".toList ∨ r.Method = "PUT".toList
                        ∨ r.Method = "PATCH".toList)
                      ∧ (pm (if Header.Get r.Header "Content-Type".toList = []
                            then "application/octet-stream".toList
                            else Header.Get r.Header "Content-Type".toList)).1
                          = "application/x-www-form-urlencoded".toList
                      ∧ r.Body.length ≤ maxFormSize
                    then (ParseQuery r.Body).1 else [])
      ∧ (fillPostForm pm r).1.Form = none
      ∧ (fillPostForm pm r).1.URL = r.URL := by
    unfold fillPostForm
    simp only [hp]
    by_cases hm : r.Method = "POST".toList ∨ r.Method = "PUT".toList
        ∨ r.Method = "PATCH".toList
    · simp only [hm, if_true, true_and]
      exact ⟨by rw [hv], hk.2.2.trans hf, hk.1⟩
    · simp only [hm, if_false, false_and, Option.getD_none, hf, and_self]
  unfold Request.ParseForm
  simp only []
  unfold fillForm
  simp only [h1.1, h1.2.1, h1.2.2, Option.getD_some]
  split_ifs <;> cases r.URL <;> rfl

/-! ## The claims -/

/-- C1: for every real writer, inner handler and request, the logged
"responseBody" field is the concatenation, in call order, of the byte slices
that the inner handler passed to `Write` on the capturing writer, whatever
counts or errors the real writer returned. -/
theorem responseBody_is_concat_of_writes {σ : Type} (pm : Bytes → Bytes × Option Error)
    (W : ResponseWriter σ) (next : Handler) (w : σ) (r : Request) :
    logged "responseBody" (LogHTTPInfo pm W next w r).trace
      = some (zapByteString "responseBody"
          (concat (writes (callsOf (LogHTTPInfo pm W next w r).trace)))) := by
  have h := LogHTTPInfo_trace pm W next w r
  rw [h.1, h.2, field_responseBody]
  simp [ServeHTTP_buf]

/-- C2: `Write` of the capturing writer is transparent. On a recording real
writer one call `Write(b)` adds exactly the one call `Write(b)` to the record,
leaves the real writer in the state its own `Write` gives, and returns the
(count, error) pair of the real writer; the same pair and state come out over
every real writer. -/
theorem Write_is_transparent {σ : Type} (W : ResponseWriter σ)
    (c : responseWriter (σ × List Call)) (b : Bytes) :
    (responseWriter.Write (traced W) c b).1.w.2 = c.w.2 ++ [Call.Write b]
      ∧ (responseWriter.Write (traced W) c b).1.w.1 = (W.Write c.w.1 b).1
      ∧ (responseWriter.Write (traced W) c b).2 = (W.Write c.w.1 b).2
      ∧ ∀ c' : responseWriter σ,
          (responseWriter.Write W c' b).2 = (W.Write c'.w b).2
            ∧ (responseWriter.Write W c' b).1.w = (W.Write c'.w b).1 := by
  refine ⟨rfl, rfl, rfl, fun c' => ⟨rfl, rfl⟩⟩

/-- C7: one invocation of the filter logs exactly one entry, and the trace of the
invocation is the calls of the inner handler followed by that entry. -/
theorem one_log_after_handler {σ : Type} (pm : Bytes → Bytes × Option Error)
    (W : ResponseWriter σ) (next : Handler) (w : σ) (r : Request) :
    (entries (LogHTTPInfo pm W next w r).trace).length = 1
      ∧ callsOf (LogHTTPInfo pm W next w r).trace
          = (next.ServeHTTP W { w := w, buf := [], code := 0 } r).calls
      ∧ ∃ e, (LogHTTPInfo pm W next w r).trace
          = (callsOf (LogHTTPInfo pm W next w r).trace).map Event.call ++ [Event.log e] := by
  refine ⟨?_, (LogHTTPInfo_trace pm W next w r).1, ?_⟩
  · simp only [LogHTTPInfo, entries_calls_append, List.length_singleton]
  · rw [(LogHTTPInfo_trace pm W next w r).1]
    exact ⟨_, rfl⟩

/-- C8: the one entry logged has twelve fields: the namespace "httpInfo" first,
then host, method, path, form, query, vars, requestBody, requestHeader,
responseCode, responseHeader, responseBody, in this order, whatever the request
and the response are. -/
theorem log_has_twelve_fields_in_order {σ : Type} (pm : Bytes → Bytes × Option Error)
    (W : ResponseWriter σ) (next : Handler) (w : σ) (r : Request) :
    (entries (LogHTTPInfo pm W next w r).trace).map (fun e => e.Fields.map Field.key)
        = [["httpInfo", "host", "method", "path", "form", "query", "vars", "requestBody",
            "requestHeader", "responseCode", "responseHeader", "responseBody"]]
      ∧ (entries (LogHTTPInfo pm W next w r).trace).map (fun e => e.Fields.head?)
        = [some (zapNamespace "httpInfo")]
      ∧ (entries (LogHTTPInfo pm W next w r).trace).map (fun e => e.Fields.length) = [12] := by
  simp only [LogHTTPInfo, entries_calls_append, List.map_cons, List.map_nil, log_Fields]
  simp [Field.key, zapNamespace]

/-- C3, the code at the failing input: the inner handler only calls
`Write("hello")`; the real response gets the implicit status 200, and the logged
"responseCode" is 0, the zero value of the field `code`. -/
theorem responseCode_zero_when_only_body_written :
    (LogHTTPInfo bareMediaType server onlyBody fresh getItems).w.status = some 200
      ∧ (LogHTTPInfo bareMediaType server onlyBody fresh getItems).w.body = "hello".toList
      ∧ statuses (callsOf (LogHTTPInfo bareMediaType server onlyBody fresh getItems).trace) = []
      ∧ logged "responseCode" (LogHTTPInfo bareMediaType server onlyBody fresh getItems).trace
          = some (zapInt "responseCode" 0) := by
  decide

/-- C4: when the calls of the inner handler on the capturing writer are
`WriteHeader(c)` followed only by calls of `Write`, the real writer gets the same
calls, `WriteHeader(c)` first and with exactly `c`, the logged "responseCode" is
`c`, and the logged "responseBody" is what was written. -/
theorem WriteHeader_once_is_forwarded_and_logged {σ : Type} (pm : Bytes → Bytes × Option Error)
    (W : ResponseWriter σ) (next : Handler) (w : σ) (r : Request) (c : Int) (rest : List Call)
    (h1 : callsOf (LogHTTPInfo pm (traced W) next (w, []) r).trace = Call.WriteHeader c :: rest)
    (h2 : statuses rest = []) :
    (LogHTTPInfo pm (traced W) next (w, []) r).w.2 = Call.WriteHeader c :: rest
      ∧ logged "responseCode" (LogHTTPInfo pm (traced W) next (w, []) r).trace
          = some (zapInt "responseCode" c)
      ∧ logged "responseBody" (LogHTTPInfo pm (traced W) next (w, []) r).trace
          = some (zapByteString "responseBody" (concat (writes rest))) := by
  have h := LogHTTPInfo_trace pm (traced W) next (w, []) r
  rw [h.1] at h1
  refine ⟨?_, ?_, ?_⟩
  · show (httpInfo.log pm (traced W) _).1.w.w.2 = _
    rw [log_keeps_writer]
    simp only []
    rw [ServeHTTP_traced, h1]
    rfl
  · rw [h.2, field_responseCode]
    simp only []
    rw [ServeHTTP_code, h1]
    simp [lastStatus, lastStatus_of_statuses_nil _ _ h2]
  · rw [h.2, field_responseBody]
    simp only []
    rw [ServeHTTP_buf, h1]
    simp [writes]

/-- C4 at the scenario of the claim: `WriteHeader(404)` then `Write("not found")`
logs responseCode 404 and responseBody "not found", and the real response shows
status 404 and body "not found". -/
theorem WriteHeader_404_not_found :
    (callsOf (LogHTTPInfo bareMediaType (traced server) notFound (fresh, []) getItems).trace
        = Call.WriteHeader 404 :: [Call.Write "not found".toList]
      ∧ statuses [Call.Write "not found".toList] = [])
      ∧ ((LogHTTPInfo bareMediaType (traced server) notFound (fresh, []) getItems).w.2
          = Call.WriteHeader 404 :: [Call.Write "not found".toList]
        ∧ logged "responseCode"
            (LogHTTPInfo bareMediaType (traced server) notFound (fresh, []) getItems).trace
          = some (zapInt "responseCode" 404)
        ∧ logged "responseBody"
            (LogHTTPInfo bareMediaType (traced server) notFound (fresh, []) getItems).trace
          = some (zapByteString "responseBody" (concat (writes [Call.Write "not found".toList]))))
      ∧ (LogHTTPInfo bareMediaType (traced server) notFound (fresh, []) getItems).w.1
          = { header := [], status := some 404, body := "not found".toList } :=
  ⟨⟨by decide, by decide⟩,
    WriteHeader_once_is_forwarded_and_logged bareMediaType server notFound fresh getItems 404
      [Call.Write "not found".toList] (by decide) (by decide),
    by decide⟩

/-- C5, the code at the failing input: a POST whose body `a=1` is a form, and an
inner handler that does nothing and so does not read the body. `form` reads the
body through `ParseForm` before `requestBody` runs, and the logged "requestBody"
is empty. -/
theorem requestBody_empty_after_form_of_POST :
    postForm.Body = "a=1".toList
      ∧ (Handler.ret.ServeHTTP server { w := fresh, buf := [], code := 0 } postForm).r = postForm
      ∧ logged "form" (LogHTTPInfo bareMediaType server Handler.ret fresh postForm).trace
          = some (zapReflect "form" (some [("a".toList, ["1".toList])]))
      ∧ logged "requestBody" (LogHTTPInfo bareMediaType server Handler.ret fresh postForm).trace
          = some (zapString "requestBody" []) := by
  decide

/-- C6 as it is written fails: for the GET to "/items?limit=5" with no body the
logged "form" is not the empty mapping, it holds the query parameter `limit`. -/
theorem form_of_GET_holds_query_parameters :
    getItems.Body = []
      ∧ logged "form" (LogHTTPInfo bareMediaType server Handler.ret fresh getItems).trace
          = some (zapReflect "form" (some [("limit".toList, ["5".toList])]))
      ∧ logged "form" (LogHTTPInfo bareMediaType server Handler.ret fresh getItems).trace
          ≠ some (zapReflect "form" (some []))
      ∧ logged "query" (LogHTTPInfo bareMediaType server Handler.ret fresh getItems).trace
          = some (zapReflect "query" (some [("limit".toList, ["5".toList])])) := by
  decide

/-- C6 amended: for every request that reaches `log` not parsed before, the
logged "form" field is the request body parsed as a form together with the query
parameters of the URL. With `post` the body form (the parsed body of a POST, PUT
or PATCH whose media type is `application/x-www-form-urlencoded` and whose body
fits in `maxFormSize`, the empty mapping for any other request) and `q` the
parsed query of the URL, which is the logged "query" field, every name of the
logged form maps to its values in `post` followed by its values in `q`. With no
body form, and so for every request with no body, the logged form is `q`. -/
theorem form_field_is_body_form_then_query {σ : Type} (pm : Bytes → Bytes × Option Error)
    (W : ResponseWriter σ) (hi : httpInfo σ)
    (hf : hi.r.Form = none) (hp : hi.r.PostForm = none) :
    ∃ post q form : Values,
      post = (if (hi.r.Method = "POST".toList ∨ hi.r.Method = "PUT".toList
                    ∨ hi.r.Method = "PATCH".toList)
                  ∧ (pm (if Header.Get hi.r.Header "Content-Type".toList = []
                        then "application/octet-stream".toList
                        else Header.Get hi.r.Header "Content-Type".toList)).1
                      = "application/x-www-form-urlencoded".toList
                  ∧ hi.r.Body.length ≤ maxFormSize
                then (ParseQuery hi.r.Body).1 else [])
      ∧ q = (match hi.r.URL with
              | none => []
              | some u => (ParseQuery u.RawQuery).1)
      ∧ (hi.log pm W).2.field "form" = some (zapReflect "form" (some form))
      ∧ (hi.log pm W).2.field "query" = some (zapReflect "query" (some q))
      ∧ (∀ k, mapGet form k
          = match mapGet post k, mapGet q k with
            | none, none => none
            | some a, none => some a
            | none, some b => some b
            | some a, some b => some (a ++ b))
      ∧ (mapKeys form).Nodup
      ∧ (post = [] → form = q)
      ∧ (hi.r.Body = [] → form = q) := by
  obtain ⟨post, q, hpost, hq, hF⟩ := ParseForm_Form_of_fresh pm hi.r hf hp
  have ndq : (mapKeys q).Nodup := by
    rw [hq]
    cases hi.r.URL with
    | none => exact List.nodup_nil
    | some u => exact nodup_mapKeys_ParseQuery u.RawQuery
  have ndp : (mapKeys post).Nodup := by
    rw [hpost]
    split_ifs <;> first
      | exact nodup_mapKeys_ParseQuery hi.r.Body
      | exact List.nodup_nil
  have hnil : post = [] →
      (if post.length > 0 then copyValues (copyValues [] post) q else q) = q := by
    intro e
    rw [e]
    rfl
  refine ⟨post, q, _, hpost, hq, ?_, ?_, mapGet_form_of_post_and_query post q ndp ndq,
    ?_, hnil, ?_⟩
  · rw [field_form, hF]
  · rw [field_query, hq]
  · split_ifs
    · exact nodup_mapKeys_copyValues q _
        (nodup_mapKeys_copyValues post [] List.nodup_nil)
    · exact ndq
  · intro hb
    apply hnil
    rw [hpost, hb, ParseQuery_nil]
    split_ifs <;> rfl

/-- C6 amended at the POST to "/items?limit=5" with the form body `a=1&limit=9`:
the logged form holds `a` from the body and, under `limit`, the value of the
body followed by the value of the query; at the GET to "/items?limit=5" with no
body it holds `limit` from the query. -/
theorem form_field_of_postItems :
    (atLogPost.r.Form = none ∧ atLogPost.r.PostForm = none)
      ∧ (∃ post q form : Values,
          post = (if (atLogPost.r.Method = "POST".toList ∨ atLogPost.r.Method = "PUT".toList
                        ∨ atLogPost.r.Method = "PATCH".toList)
                      ∧ (bareMediaType
                          (if Header.Get atLogPost.r.Header "Content-Type".toList = []
                            then "application/octet-stream".toList
                            else Header.Get atLogPost.r.Header "Content-Type".toList)).1
                          = "application/x-www-form-urlencoded".toList
                      ∧ atLogPost.r.Body.length ≤ maxFormSize
                    then (ParseQuery atLogPost.r.Body).1 else [])
          ∧ q = (match atLogPost.r.URL with
                  | none => []
                  | some u => (ParseQuery u.RawQuery).1)
          ∧ (atLogPost.log bareMediaType server).2.field "form"
              = some (zapReflect "form" (some form))
          ∧ (atLogPost.log bareMediaType server).2.field "query"
              = some (zapReflect "query" (some q))
          ∧ (∀ k, mapGet form k
              = match mapGet post k, mapGet q k with
                | none, none => none
                | some a, none => some a
                | none, some b => some b
                | some a, some b => some (a ++ b))
          ∧ (mapKeys form).Nodup
          ∧ (post = [] → form = q)
          ∧ (atLogPost.r.Body = [] → form = q))
      ∧ (atLogPost.log bareMediaType server).2.field "form"
          = some (zapReflect "form"
              (some [("a".toList, ["1".toList]), ("limit".toList, ["9".toList, "5".toList])]))
      ∧ (atLogPost.log bareMediaType server).2.field "query"
          = some (zapReflect "query" (some [("limit".toList, ["5".toList])]))
      ∧ logged "form" (LogHTTPInfo bareMediaType server Handler.ret fresh postItems).trace
          = some (zapReflect "form"
              (some [("a".toList, ["1".toList]), ("limit".toList, ["9".toList, "5".toList])]))
      ∧ (atLog.log bareMediaType server).2.field "form"
          = some (zapReflect "form" (some [("limit".toList, ["5".toList])])) :=
  ⟨⟨rfl, rfl⟩, form_field_is_body_form_then_query bareMediaType server atLogPost rfl rfl,
    by decide, by decide, by decide, by decide⟩

/-- C9: for a route-variable mapping with distinct keys, the logged "vars" field
is a mapping with the same keys in which each key `k` maps to the one-element
list of the value of `k`; an empty or absent mapping gives the empty mapping. -/
theorem vars_field_wraps_each_value {σ : Type} (pm : Bytes → Bytes × Option Error)
    (W : ResponseWriter σ) (hi : httpInfo σ)
    (hn : (mapKeys (hi.r.vars.getD [])).Nodup) :
    ∃ v : Values,
      (hi.log pm W).2.field "vars" = some (zapReflect "vars" (some v))
        ∧ mapKeys v = mapKeys (hi.r.vars.getD [])
        ∧ (∀ k, mapGet v k = (mapGet (hi.r.vars.getD []) k).map (fun x => [x]))
        ∧ (hi.r.vars = none ∨ hi.r.vars = some [] → v = []) := by
  refine ⟨(hi.r.vars.getD []).map (fun kv => (kv.1, [kv.2])), ?_, ?_, ?_, ?_⟩
  · rw [field_vars, foldl_mapSet_wrap _ [] (by simp [mapKeys]) hn]
    rfl
  · simp [mapKeys, List.map_map, Function.comp_def]
  · intro k
    exact mapGet_wrap _ k
  · rintro (h | h) <;> simp [h]

/-- C9 at the route variable `id = 42`: the logged "vars" is `id` mapped to `["42"]`. -/
theorem vars_field_of_getItems :
    (mapKeys (atLog.r.vars.getD [])).Nodup
      ∧ ∃ v : Values,
          (atLog.log bareMediaType server).2.field "vars" = some (zapReflect "vars" (some v))
            ∧ mapKeys v = mapKeys (atLog.r.vars.getD [])
            ∧ (∀ k, mapGet v k = (mapGet (atLog.r.vars.getD []) k).map (fun x => [x]))
            ∧ (atLog.r.vars = none ∨ atLog.r.vars = some [] → v = []) :=
  ⟨by decide, vars_field_wraps_each_value bareMediaType server atLog (by decide)⟩

/-- C10: the logged "query" field is always there; it is the empty mapping when
the request has no URL and when the URL has an empty query, and for a URL with a
query it is the mapping that `ParseQuery` gives, `limit` mapped to `["5"]` for
the query of "/items?limit=5". -/
theorem query_field_is_parsed_query {σ : Type} (pm : Bytes → Bytes × Option Error)
    (W : ResponseWriter σ) (hi : httpInfo σ) :
    (hi.r.URL = none →
        (hi.log pm W).2.field "query" = some (zapReflect "query" (some [])))
      ∧ (∀ u, hi.r.URL = some u → u.RawQuery = [] →
        (hi.log pm W).2.field "query" = some (zapReflect "query" (some [])))
      ∧ (∀ u, hi.r.URL = some u →
        (hi.log pm W).2.field "query" = some (zapReflect "query" (some (ParseQuery u.RawQuery).1)))
      ∧ (ParseQuery "limit=5".toList).1 = [("limit".toList, ["5".toList])] := by
  refine ⟨?_, ?_, ?_, by decide⟩
  · intro h
    rw [field_query, h]
  · intro u h hq
    rw [field_query, h]
    simp only [hq, ParseQuery_nil]
  · intro u h
    rw [field_query, h]

/-- C10 at the GET to "/items?limit=5": the logged "query" is `limit` mapped to `["5"]`. -/
theorem query_field_of_getItems :
    atLog.r.URL = some { RawQuery := "limit=5".toList }
      ∧ (atLog.log bareMediaType server).2.field "query"
          = some (zapReflect "query" (some (ParseQuery "limit=5".toList).1)) :=
  ⟨rfl, (query_field_is_parsed_query bareMediaType server atLog).2.2.1 _ rfl⟩

end Filter
